import Mathlib

/-!
Verification of the svelte-form-hook form-state engine.

Shallow embedding of the JavaScript/TypeScript sources:
  - JS values are modelled by `JVal`; objects are association lists of
    string keys to values (`JObj`), JS `undefined` is `JVal.vUndefined` when it
    appears as a stored value, while an absent property reads as `none`.
  - Mutation of the object graph (the two `setNestedValue` variants write
    through references) is modelled with an explicit heap: `Heap` maps
    addresses to objects and `JVal.vRef` points into it.
  - Primitives are modelled without properties; property assignment on a
    primitive, `null`, or `undefined` raises (ES-module strict mode), which
    the embeddings of fallible operations return as `none`.
  - The form engine (`trigger`, `handleSubmit`, `reset`) from
    `src/lib/svelte-hook-form.ts` is modelled as explicit state passing over
    `FormSt`; the single-threaded run-to-completion execution model of the
    source lets the event handlers be plain state transformers.
-/

set_option autoImplicit false

namespace SvelteFormHook

/-- A JavaScript value: `undefined`, `null`, a primitive, or a reference to
a heap-allocated object. -/
inductive JVal where
  | vUndefined
  | vNull
  | vBool (b : Bool)
  | vNum (n : Int)
  | vStr (s : String)
  | vRef (a : Nat)
  deriving DecidableEq, Repr

/-- A JavaScript object: its own enumerable properties, in insertion order. -/
abbrev JObj := List (String × JVal)

/-- The object heap; addresses are list indices, allocation appends. -/
abbrev Heap := List JObj

/-- Generic association-list lookup (first entry wins, like a JS property
table where keys are unique). `none` models an absent property. -/
def alGet {α : Type} : List (String × α) → String → Option α
  | [], _ => none
  | (k, v) :: rest, key => if k = key then some v else alGet rest key

/-- Association-list write: replace the entry in place, or append —
the semantics of `obj[key] = value` on a JS object. -/
def alSet {α : Type} : List (String × α) → String → α → List (String × α)
  | [], key, v => [(key, v)]
  | (k, w) :: rest, key, v =>
      if k = key then (k, v) :: rest else (k, w) :: alSet rest key v

/-- Association-list delete — the semantics of `delete obj[key]`. -/
def alRemove {α : Type} : List (String × α) → String → List (String × α)
  | [], _ => []
  | (k, w) :: rest, key =>
      if k = key then alRemove rest key else (k, w) :: alRemove rest key

/-- Read the object at a heap address (dangling addresses never arise in the
states reachable from the source's entry points). -/
def heapGet (h : Heap) (a : Nat) : JObj := (h[a]?).getD []

/-- Overwrite the object at a heap address. -/
def heapSet (h : Heap) (a : Nat) (o : JObj) : Heap := h.set a o

/-- Accumulator pass of `jsSplitDot`: collect characters (in reverse) until
a dot, emit the collected segment, continue. -/
def splitDotGo : List Char → List Char → List String
  | [], acc => [String.mk acc.reverse]
  | c :: cs, acc =>
      if c = '.' then String.mk acc.reverse :: splitDotGo cs []
      else splitDotGo cs (c :: acc)

/-- `path.split(".")` from JavaScript (also the behavior of
`String.splitOn path "."`): `""` splits to `[""]`, `"a.b"` to
`["a", "b"]`, `"a..b"` to `["a", "", "b"]`. Implemented by structural
recursion over the characters so that proofs can evaluate it. -/
def jsSplitDot (s : String) : List String := splitDotGo s.data []

/-- `acc === null || acc === undefined` from `getNestedValue`. -/
def isNullOrUndefined : JVal → Bool
  | .vNull => true
  | .vUndefined => true
  | _ => false

/-- Property read `v[k]` for a value already known not to be `null` or
`undefined`; primitives have no modelled properties, so they read as
`undefined`. -/
def jsGetProp (h : Heap) (v : JVal) (k : String) : JVal :=
  match v with
  | .vRef a => (alGet (heapGet h a) k).getD .vUndefined
  | _ => .vUndefined

/-- The `reduce` body of `getNestedValue` (`src/lib/utils.ts` lines 8-13 and
its duplicate in `src/lib/svelte-hook-form.ts` lines 33-38): for each path
part, return `undefined` if the accumulator is `null`/`undefined`, else read
the property. -/
def getNVGo (h : Heap) : JVal → List String → JVal
  | acc, [] => acc
  | acc, p :: ps =>
      if isNullOrUndefined acc then getNVGo h .vUndefined ps
      else getNVGo h (jsGetProp h acc p) ps

/-- `getNestedValue(obj, path)`: split on `"."` and reduce. -/
def getNestedValue (h : Heap) (obj : JVal) (path : String) : JVal :=
  getNVGo h obj (jsSplitDot path)

/-- One creation step of the `setNestedValue` walk:
`current[part] = {}` followed by `current = current[part]` — allocate a
fresh empty object, store a reference to it at `part`, and return that
reference. -/
def setStep (h : Heap) (a : Nat) (p : String) : Heap × JVal :=
  (heapSet (h ++ [([] : JObj)]) a (alSet (heapGet h a) p (.vRef h.length)),
   .vRef h.length)

/-- The intermediate-segment loop shared by both `setNestedValue` variants
(`for (const part of rest.reverse()) { if (current[part] === undefined)
current[part] = {}; current = current[part]; }`). Property access or
assignment on a non-object raises, modelled as `none`. -/
def setWalk (h : Heap) (cur : JVal) : List String → Option (Heap × JVal)
  | [] => some (h, cur)
  | p :: ps =>
      match cur with
      | .vRef a =>
          match alGet (heapGet h a) p with
          | none => match setStep h a p with
            | (h1, nxt) => setWalk h1 nxt ps
          | some w =>
              if w = .vUndefined then
                match setStep h a p with
                | (h1, nxt) => setWalk h1 nxt ps
              else setWalk h w ps
      | _ => none

/-- The final write `current[last] = value`; raises on a non-object. -/
def setFinal (h : Heap) (cur : JVal) (last : String) (value : JVal) :
    Option Heap :=
  match cur with
  | .vRef a => some (heapSet h a (alSet (heapGet h a) last value))
  | _ => none

/-- `setNestedValue` as duplicated inside `src/lib/svelte-hook-form.ts`
lines 43-57: `let current = obj;` — walks and writes through the argument
itself, then `return obj`. -/
def formSetNestedValue (h : Heap) (obj : JVal) (path : String)
    (value : JVal) : Option (Heap × JVal) :=
  match (jsSplitDot path).reverse with
  | [] => none
  | last :: restRev =>
      match setWalk h obj restRev.reverse with
      | none => none
      | some (h1, cur) =>
          match setFinal h1 cur last value with
          | none => none
          | some h2 => some (h2, obj)

/-- `setNestedValue` from `src/lib/utils.ts` lines 18-32:
`let current = { ...obj };` — the walk starts from a fresh shallow copy of
`obj`, but the function ends with `return obj`, handing back the original
reference. -/
def utilsSetNestedValue (h : Heap) (obj : JVal) (path : String)
    (value : JVal) : Option (Heap × JVal) :=
  let fields : JObj := match obj with | .vRef a => heapGet h a | _ => []
  let c := h.length
  let h0 := h ++ [fields]
  match (jsSplitDot path).reverse with
  | [] => none
  | last :: restRev =>
      match setWalk h0 (.vRef c) restRev.reverse with
      | none => none
      | some (h1, cur) =>
          match setFinal h1 cur last value with
          | none => none
          | some h2 => some (h2, obj)

/-- Field errors: a JS `Record<string, string>`. -/
abbrev Errors := List (String × String)

/-- A resolver result `{ values?, errors? }`; `none` models an absent
property. -/
structure RResult where
  rvalues : Option JObj := none
  rerrors : Option Errors := none
  deriving DecidableEq, Repr

/-- What a resolver call evaluates to before any `await`: either a plain
result object (synchronous resolver) or a `Promise` that will later resolve
to a result (asynchronous resolver). -/
inductive ROut where
  | sync (r : RResult)
  | promise (r : RResult)
  deriving DecidableEq, Repr

/-- A resolver, as the engine uses it: a pure function of the values object
it is given (the spec trusts resolvers to be side-effect-free). -/
abbrev Resolver := JObj → ROut

/-- The expression `result?.errors` as the source evaluates it: a
synchronous result exposes its `errors` property; a `Promise` object has no
own `errors` property, so the read yields `undefined`. -/
def outErrors : ROut → Option Errors
  | .sync r => r.rerrors
  | .promise _ => none

/-- JS truthiness of an error-message read: `undefined` and the empty
string are falsy, every other string is truthy. -/
def truthyMsg : Option String → Bool
  | none => false
  | some s => decide (s ≠ "")

/-- The state owned by one form instance: the five writable stores of
`useForm` (values, errors, touched, dirty, isSubmitting). -/
structure FormSt where
  values : JObj
  errors : Errors
  touched : List (String × Bool)
  dirty : List (String × Bool)
  isSubmitting : Bool
  deriving DecidableEq, Repr

/-- The single-key projection `{ [name]: currentValues[name] }` built by the
per-field branch of `trigger`: a direct flat-key lookup on the top-level
values object (not a nested-path read); an absent key projects to a stored
`undefined`. -/
def fieldProjection (vals : JObj) (name : String) : JObj :=
  [(name, (alGet vals name).getD JVal.vUndefined)]

/-- `trigger(name?)` from `src/lib/svelte-hook-form.ts` lines 163-189 (and
its duplicate at lines 399-425), returning the boolean result together with
the updated form state:
  - no resolver: clear errors, return `true`;
  - per-field: run the resolver on the single-key projection, add/replace
    the field's entry when `result?.errors?.[name]` is truthy, delete it
    otherwise, return the negation of that truthiness;
  - whole-form: run the resolver on the current values, set the errors
    store to `result?.errors || {}`, return `!result?.errors`. -/
def triggerRun (resolver : Option Resolver) (name : Option String)
    (st : FormSt) : Bool × FormSt :=
  match resolver with
  | none => (true, { st with errors := [] })
  | some res =>
      match name with
      | some n =>
          let result := res (fieldProjection st.values n)
          let msg := (outErrors result).bind (fun es => alGet es n)
          let newErrors :=
            if truthyMsg msg then alSet st.errors n (msg.getD "")
            else alRemove st.errors n
          (!(truthyMsg msg), { st with errors := newErrors })
      | none =>
          let result := res st.values
          ((outErrors result).isNone,
           { st with errors := (outErrors result).getD [] })

/-- The outcome of one invocation of the event handler returned by
`handleSubmit`: the final form state, the list of arguments the submit
callback was invoked with, and whether an exception propagated out of the
handler. -/
structure SubmitOut where
  st : FormSt
  calls : List JObj
  threw : Bool
  deriving DecidableEq, Repr

/-- The event handler returned by `handleSubmit(callback)`
(`src/lib/svelte-hook-form.ts` lines 191-202 and 427-438):
set `isSubmitting` to `true`, run the whole-form trigger, await the
callback on the current values when the trigger passed, then set
`isSubmitting` to `false`. The source has no `try`/`finally`: when the
awaited callback throws, the async handler rejects immediately and the
final `isSubmitting.set(false)` never executes. The callback is modelled
by the predicate `cbThrows` telling whether it throws on a given values
object (`e.preventDefault()` has no engine-state effect and is omitted). -/
def runHandleSubmit (resolver : Option Resolver) (cbThrows : JObj → Bool)
    (st : FormSt) : SubmitOut :=
  let st1 := { st with isSubmitting := true }
  match triggerRun resolver none st1 with
  | (ok, st2) =>
      if ok then
        let args := st2.values
        if cbThrows args then { st := st2, calls := [args], threw := true }
        else
          { st := { st2 with isSubmitting := false }, calls := [args],
            threw := false }
      else
        { st := { st2 with isSubmitting := false }, calls := [],
          threw := false }

/-- Object spread `{...a, ...b}`: start from `a`, then write each of
`b`'s entries in order. -/
def objMerge (a b : JObj) : JObj :=
  b.foldl (fun acc kv => alSet acc kv.1 kv.2) a

/-- `reset(newValues?)` from `src/lib/svelte-hook-form.ts` lines 226-231 and
462-467: set values to `{...defaultValues, ...(newValues ?? {})}` and clear
errors, touched and dirty. -/
def resetRun (defaults : JObj) (newValues : Option JObj) (st : FormSt) :
    FormSt :=
  { values := objMerge defaults (newValues.getD []),
    errors := [], touched := [], dirty := [],
    isSubmitting := st.isSubmitting }

/-- A Zod issue, restricted to what `zodResolver` reads: the issue path
(modelled as string segments) and the message. -/
structure ZIssue where
  path : List String
  message : String
  deriving DecidableEq, Repr

/-- The result of `schema.safeParse(values)`. -/
inductive ZResult where
  | success (data : JObj)
  | failure (issues : List ZIssue)
  deriving DecidableEq, Repr

/-- `(parse v).isSuccess`. -/
def ZResult.isSuccess : ZResult → Bool
  | .success _ => true
  | .failure _ => false

/-- The parsed data of a successful parse. -/
def ZResult.getData : ZResult → Option JObj
  | .success d => some d
  | .failure _ => none

/-- The issue loop of the guarded `zodResolver` variant
(`src/zod-resolver.ts`, the version typed as `Resolver<T>`):
`const key = issue.path[0]; if (key && !fieldErrors[key])
fieldErrors[key] = issue.message;` — an absent or empty first segment is
falsy and skipped, and an existing entry blocks the write only while its
message is truthy (a stored empty string is falsy and gets overwritten). -/
def zodFold2 (acc : Errors) : List ZIssue → Errors
  | [] => acc
  | i :: rest =>
      let acc' :=
        match i.path.head? with
        | none => acc
        | some k =>
            if k = "" then acc
            else if truthyMsg (alGet acc k) then acc
            else alSet acc k i.message
      zodFold2 acc' rest

/-- `zodResolver(schema)` (guarded variant), with the external
`schema.safeParse` abstracted as the function `parse`: returns
`{ values: result.data }` on success and `{ errors: fieldErrors }` on
failure. -/
def zodResolver2 (parse : JObj → ZResult) (values : JObj) : RResult :=
  match parse values with
  | .success d => { rvalues := some d, rerrors := none }
  | .failure issues => { rvalues := none, rerrors := some (zodFold2 [] issues) }

/-- First-hit choice between two optional values: `{...a, ...b}` lookup
semantics take the second object's entry when present. -/
def optOr {α : Type} : Option α → Option α → Option α
  | some x, _ => some x
  | none, b => b

theorem alGet_alSet_self {α : Type} (l : List (String × α)) (k : String)
    (v : α) : alGet (alSet l k v) k = some v := by
  induction l with
  | nil => simp [alGet, alSet]
  | cons hd tl ih =>
      by_cases hk : hd.1 = k <;> simp [alGet, alSet, hk, ih]

theorem alGet_alSet_ne {α : Type} (l : List (String × α)) (k k' : String)
    (v : α) (h : k' ≠ k) : alGet (alSet l k v) k' = alGet l k' := by
  induction l with
  | nil => simp [alGet, alSet, Ne.symm h]
  | cons hd tl ih =>
      by_cases hk : hd.1 = k
      · subst hk
        simp [alGet, alSet, Ne.symm h]
      · simp [alGet, alSet, hk, ih]

theorem alGet_alRemove_self {α : Type} (l : List (String × α)) (k : String) :
    alGet (alRemove l k) k = none := by
  induction l with
  | nil => simp [alGet, alRemove]
  | cons hd tl ih =>
      by_cases hk : hd.1 = k <;> simp [alGet, alRemove, hk, ih]

theorem alGet_alRemove_ne {α : Type} (l : List (String × α)) (k k' : String)
    (h : k' ≠ k) : alGet (alRemove l k) k' = alGet l k' := by
  induction l with
  | nil => simp [alRemove]
  | cons hd tl ih =>
      by_cases hk : hd.1 = k
      · subst hk
        simp [alGet, alRemove, Ne.symm h, ih]
      · simp [alGet, alRemove, hk, ih]

theorem alGet_eq_none_of_not_mem {α : Type} (l : List (String × α))
    (k : String) (h : k ∉ l.map Prod.fst) : alGet l k = none := by
  induction l with
  | nil => simp [alGet]
  | cons hd tl ih =>
      simp only [List.map_cons, List.mem_cons] at h
      push_neg at h
      simp [alGet, Ne.symm h.1, ih h.2]

theorem heapGet_heapSet (h : Heap) (a b : Nat) (o : JObj) :
    heapGet (heapSet h a o) b =
      if a = b ∧ a < h.length then o else heapGet h b := by
  induction h generalizing a b with
  | nil => simp [heapGet, heapSet]
  | cons hd tl ih =>
      cases a with
      | zero =>
          cases b with
          | zero => simp [heapGet, heapSet]
          | succ m => simp [heapGet, heapSet]
      | succ n =>
          cases b with
          | zero => simp [heapGet, heapSet]
          | succ m =>
              have := ih n m
              simp only [heapGet, heapSet] at this ⊢
              simpa [List.set, Nat.succ_lt_succ_iff] using this

theorem alGet_objMerge (a b : JObj) (k : String)
    (hnd : (b.map Prod.fst).Nodup) :
    alGet (objMerge a b) k = optOr (alGet b k) (alGet a k) := by
  induction b generalizing a with
  | nil => simp [objMerge, alGet, optOr]
  | cons hd tl ih =>
      simp only [List.map_cons, List.nodup_cons] at hnd
      have step : objMerge a (hd :: tl) = objMerge (alSet a hd.1 hd.2) tl := by
        simp [objMerge]
      rw [step, ih (alSet a hd.1 hd.2) hnd.2]
      by_cases hk : hd.1 = k
      · subst hk
        have htl : alGet tl hd.1 = none :=
          alGet_eq_none_of_not_mem tl hd.1 hnd.1
        simp [alGet, htl, optOr, alGet_alSet_self]
      · simp [alGet, hk, alGet_alSet_ne a hd.1 k hd.2 (fun hh => hk hh.symm)]

theorem triggerRun_isSubmitting (resolver : Option Resolver)
    (name : Option String) (st : FormSt) :
    (triggerRun resolver name st).2.isSubmitting = st.isSubmitting := by
  cases resolver with
  | none => simp [triggerRun]
  | some res => cases name <;> simp [triggerRun]

theorem triggerRun_values (resolver : Option Resolver)
    (name : Option String) (st : FormSt) :
    (triggerRun resolver name st).2.values = st.values := by
  cases resolver with
  | none => simp [triggerRun]
  | some res => cases name <;> simp [triggerRun]

/-- Claim C1 (code bug): the round-trip `get(set(container, p, v), p) == v`
fails for the exported `setNestedValue` of `src/lib/utils.ts` on a
single-segment path. On the container `{a: 1}` (address 0) with path `"a"`
and value `2`, the function writes `2` only into the internal shallow copy
it allocates (address 1) and then returns the original reference, so
reading `"a"` from the returned structure still yields `1`, not the claimed
`2`. -/
theorem c1_roundtrip_fails_eval :
    utilsSetNestedValue [[("a", JVal.vNum 1)]] (.vRef 0) "a" (.vNum 2)
      = some ([[("a", JVal.vNum 1)], [("a", JVal.vNum 2)]], .vRef 0)
    ∧ getNestedValue [[("a", JVal.vNum 1)], [("a", JVal.vNum 2)]]
        (.vRef 0) "a" = JVal.vNum 1
    ∧ JVal.vNum 1 ≠ JVal.vNum 2 := by
  refine ⟨by decide, by decide, by decide⟩

/-- Claim C2, counterexample: with no resolver configured (so validation
passes) and a submit callback that throws, the handler returned by
`handleSubmit` propagates the exception while `isSubmitting` is still
`true` — the source has no `try`/`finally`, so the final
`isSubmitting.set(false)` is skipped, contradicting the claim that the flag
is reset in all cases before the exception propagates. -/
theorem c2_counterexample :
    (runHandleSubmit none (fun _ => true)
        ⟨[("a", JVal.vStr "x")], [], [], [], false⟩).threw = true
    ∧ (runHandleSubmit none (fun _ => true)
        ⟨[("a", JVal.vStr "x")], [], [], [], false⟩).st.isSubmitting = true := by
  refine ⟨by decide, by decide⟩

/-- Claim C2 as amended: for every resolver configuration, submit callback
and prior state, the handler leaves `isSubmitting` equal to `true` exactly
when the callback threw (so the flag is reset to `false` on validation
failure and on normal callback completion, but stays `true` when an
exception propagates). -/
theorem c2_flag_iff_threw (resolver : Option Resolver) (cb : JObj → Bool)
    (st : FormSt) :
    (runHandleSubmit resolver cb st).st.isSubmitting
      = (runHandleSubmit resolver cb st).threw := by
  simp only [runHandleSubmit]
  split
  · split
    · simp [triggerRun_isSubmitting]
    · simp
  · simp

/-- Claim C3, counterexample: a synchronous resolver that returns an errors
object with zero keys (`{errors: {}}`). An empty object is truthy in
JavaScript, so `!result?.errors` is `false`: whole-form `trigger()` writes
the empty error set into the errors container (discarding the stale
`password` entry) but returns `false`, while the claim requires `true`
whenever the returned error set is empty. -/
theorem c3_counterexample :
    triggerRun (some (fun _ => ROut.sync { rerrors := some [] })) none
        ⟨[], [("password", "stale")], [], [], false⟩
      = (false, ⟨[], [], [], [], false⟩) := by decide

/-- Claim C3 as amended: for every synchronous resolver and state,
whole-form `trigger()` invokes the resolver on the full current values,
replaces the entire errors container with the resolver's returned error set
(or with the empty set when the result has no `errors` property), and
returns `true` if and only if the result carries no `errors` property at
all — an errors object with zero keys still makes it return `false`. -/
theorem c3_whole_form_trigger (resolver : Resolver) (st : FormSt)
    (rr : RResult) (hres : resolver st.values = ROut.sync rr) :
    triggerRun (some resolver) none st
      = (rr.rerrors.isNone, { st with errors := rr.rerrors.getD [] }) := by
  simp [triggerRun, hres, outErrors]

/-- Witness for `c3_whole_form_trigger` at a concrete resolver and state. -/
theorem c3_whole_form_trigger_witness :
    (fun _ => ROut.sync { rerrors := some [("email", "required")] } : Resolver)
        (⟨[("email", JVal.vStr "")], [], [], [], false⟩ : FormSt).values
      = ROut.sync { rerrors := some [("email", "required")] }
    ∧ triggerRun
        (some (fun _ => ROut.sync { rerrors := some [("email", "required")] }))
        none ⟨[("email", JVal.vStr "")], [], [], [], false⟩
      = ((some [("email", "required")] : Option Errors).isNone,
         ⟨[("email", JVal.vStr "")], [("email", "required")], [], [], false⟩) := by
  refine ⟨rfl, ?_⟩
  exact c3_whole_form_trigger
    (fun _ => ROut.sync { rerrors := some [("email", "required")] })
    ⟨[("email", JVal.vStr "")], [], [], [], false⟩
    { rerrors := some [("email", "required")] } rfl

/-- Claim C4 (code bug): the engine never awaits the resolver. When the
configured resolver is asynchronous — here one whose promise resolves to
`{errors: {email: "bad"}}` — `trigger()` reads `.errors` off the pending
`Promise` object itself, gets `undefined`, clears the errors container and
returns `true`; `handleSubmit` consequently invokes the submit callback
even though the resolved result rejects the values. The source's own JSDoc
example documents async resolvers as supported, so the claim is right and
the code is wrong. -/
theorem c4_async_resolver_ignored :
    triggerRun
        (some (fun _ => ROut.promise { rerrors := some [("email", "bad")] }))
        none ⟨[("email", JVal.vStr "")], [("old", "e")], [], [], false⟩
      = (true, ⟨[("email", JVal.vStr "")], [], [], [], false⟩)
    ∧ (runHandleSubmit
        (some (fun _ => ROut.promise { rerrors := some [("email", "bad")] }))
        (fun _ => false)
        ⟨[("email", JVal.vStr "")], [("old", "e")], [], [], false⟩).calls
      = [[("email", JVal.vStr "")]] := by
  refine ⟨by decide, by decide⟩

/-- Claim C5, counterexample: both halves of the copy-on-write claim fail
on `setNestedValue` from `src/lib/utils.ts`. Heap: the container at address
0 is `{a: ref 1}` and the nested object at address 1 is `{b: 1}`, shared
with other readers. Setting path `"a.b"` to `2` writes through the shared
reference: address 1 becomes `{b: 2}` (the nested structure held by other
readers is mutated). And with an aliased container `{x: ref 1, y: ref 1}`,
setting `"x.b"` changes the read at the unrelated path `"y.b"` (neither a
prefix nor a suffix of `"x.b"`) from `1` to `2`. -/
theorem c5_counterexample :
    utilsSetNestedValue [[("a", JVal.vRef 1)], [("b", JVal.vNum 1)]]
        (.vRef 0) "a.b" (.vNum 2)
      = some ([[("a", JVal.vRef 1)], [("b", JVal.vNum 2)],
              [("a", JVal.vRef 1)]], .vRef 0)
    ∧ heapGet [[("a", JVal.vRef 1)], [("b", JVal.vNum 2)],
               [("a", JVal.vRef 1)]] 1
      ≠ heapGet [[("a", JVal.vRef 1)], [("b", JVal.vNum 1)]] 1
    ∧ (utilsSetNestedValue
         [[("x", JVal.vRef 1), ("y", JVal.vRef 1)], [("b", JVal.vNum 1)]]
         (.vRef 0) "x.b" (.vNum 2)).map (fun pr => getNestedValue pr.1 pr.2 "y.b")
      = some (JVal.vNum 2)
    ∧ getNestedValue
        [[("x", JVal.vRef 1), ("y", JVal.vRef 1)], [("b", JVal.vNum 1)]]
        (.vRef 0) "y.b" = JVal.vNum 1 := by
  refine ⟨by decide, by decide, by decide, by decide⟩

/-- Claim C5 as amended: the `setNestedValue` variants write in place
rather than copy-on-write, so only the frame half survives, restricted to
the top level: for the engine's own variant
(`src/lib/svelte-hook-form.ts`), on a single-segment path `p` the write
lands at field `p` of the container object itself, and reading any other
single-segment path `q` afterwards yields what it yielded before the
call. -/
theorem c5_top_level_frame (h : Heap) (a : Nat) (p q : String) (v : JVal)
    (hp : jsSplitDot p = [p]) (hq : jsSplitDot q = [q]) (hpq : p ≠ q) :
    formSetNestedValue h (.vRef a) p v
      = some (heapSet h a (alSet (heapGet h a) p v), .vRef a)
    ∧ getNestedValue (heapSet h a (alSet (heapGet h a) p v)) (.vRef a) q
      = getNestedValue h (.vRef a) q := by
  constructor
  · simp [formSetNestedValue, hp, setWalk, setFinal]
  · have hred : ∀ hh : Heap, getNestedValue hh (.vRef a) q
        = (alGet (heapGet hh a) q).getD JVal.vUndefined := by
      intro hh
      simp [getNestedValue, hq, getNVGo, isNullOrUndefined, jsGetProp]
    rw [hred, hred, heapGet_heapSet]
    by_cases hc : a = a ∧ a < h.length
    · rw [if_pos hc, alGet_alSet_ne (heapGet h a) p q v (Ne.symm hpq)]
    · rw [if_neg hc]

/-- Witness for `c5_top_level_frame` on the container `{a: 1, b: 3}` with
`p = "a"`, `q = "b"`. -/
theorem c5_top_level_frame_witness :
    jsSplitDot "a" = ["a"] ∧ jsSplitDot "b" = ["b"] ∧ "a" ≠ "b"
    ∧ (formSetNestedValue [[("a", JVal.vNum 1), ("b", JVal.vNum 3)]]
         (.vRef 0) "a" (.vNum 2)
        = some (heapSet [[("a", JVal.vNum 1), ("b", JVal.vNum 3)]] 0
            (alSet (heapGet [[("a", JVal.vNum 1), ("b", JVal.vNum 3)]] 0)
              "a" (.vNum 2)), .vRef 0)
       ∧ getNestedValue
           (heapSet [[("a", JVal.vNum 1), ("b", JVal.vNum 3)]] 0
             (alSet (heapGet [[("a", JVal.vNum 1), ("b", JVal.vNum 3)]] 0)
               "a" (.vNum 2))) (.vRef 0) "b"
         = getNestedValue [[("a", JVal.vNum 1), ("b", JVal.vNum 3)]]
             (.vRef 0) "b") := by
  refine ⟨by decide, by decide, by decide, ?_⟩
  exact c5_top_level_frame [[("a", JVal.vNum 1), ("b", JVal.vNum 3)]] 0
    "a" "b" (.vNum 2) (by decide) (by decide) (by decide)

/-- Claim C6, counterexample: a synchronous resolver that reports the
entry `{email: ""}` for the triggered field. The empty-string message is
falsy, so `result?.errors?.["email"]` fails the truthiness test:
per-field `trigger("email")` deletes the field's existing error entry and
returns `true`, instead of adding/replacing the entry as the claim states
for a resolver that reports an error for the field. -/
theorem c6_counterexample :
    triggerRun (some (fun _ => ROut.sync { rerrors := some [("email", "")] }))
        (some "email")
        ⟨[("email", JVal.vStr "x")],
         [("email", "old"), ("password", "p")], [], [], false⟩
      = (true, ⟨[("email", JVal.vStr "x")], [("password", "p")],
                [], [], false⟩) := by decide

/-- Claim C6 as amended: for every synchronous resolver, field path `f` and
prior state, per-field `trigger(f)` touches only the errors container, and
there only the entry for `f`: every other key's entry is unchanged; `f`'s
entry becomes the resolver's reported message when that message is truthy
(present and non-empty) and is removed otherwise — a reported empty-string
message removes the entry instead of storing it; the returned boolean is
`true` exactly when `f` has no error entry after the call. -/
theorem c6_per_field_trigger (resolver : Resolver) (st : FormSt)
    (f gkey : String) (rr : RResult)
    (hres : resolver (fieldProjection st.values f) = ROut.sync rr)
    (hg : gkey ≠ f) :
    (triggerRun (some resolver) (some f) st).2.values = st.values
    ∧ (triggerRun (some resolver) (some f) st).2.touched = st.touched
    ∧ (triggerRun (some resolver) (some f) st).2.dirty = st.dirty
    ∧ alGet (triggerRun (some resolver) (some f) st).2.errors gkey
        = alGet st.errors gkey
    ∧ alGet (triggerRun (some resolver) (some f) st).2.errors f
        = (if truthyMsg (rr.rerrors.bind (fun es => alGet es f))
           then rr.rerrors.bind (fun es => alGet es f) else none)
    ∧ (triggerRun (some resolver) (some f) st).1
        = (alGet (triggerRun (some resolver) (some f) st).2.errors f).isNone := by
  simp only [triggerRun, hres, outErrors]
  rcases hmsg : rr.rerrors.bind (fun es => alGet es f) with _ | s
  · simp [hmsg, truthyMsg, alGet_alRemove_self,
      alGet_alRemove_ne st.errors f gkey hg]
  · by_cases hs : s = ""
    · subst hs
      simp [hmsg, truthyMsg, alGet_alRemove_self,
        alGet_alRemove_ne st.errors f gkey hg]
    · simp [hmsg, truthyMsg, hs, alGet_alSet_self,
        alGet_alSet_ne st.errors f gkey s hg]

/-- Witness for `c6_per_field_trigger`: a resolver reporting
`{email: "required"}`, field `"email"`, unrelated key `"password"`. -/
theorem c6_per_field_trigger_witness :
    (fun _ => ROut.sync { rerrors := some [("email", "required")] } : Resolver)
        (fieldProjection
          (⟨[("email", JVal.vStr "")], [("password", "p")], [], [], false⟩ :
            FormSt).values "email")
      = ROut.sync { rerrors := some [("email", "required")] }
    ∧ "password" ≠ "email"
    ∧ alGet (triggerRun
        (some (fun _ => ROut.sync { rerrors := some [("email", "required")] }))
        (some "email")
        ⟨[("email", JVal.vStr "")], [("password", "p")], [], [], false⟩).2.errors
        "password" = some "p" := by
  refine ⟨rfl, by decide, ?_⟩
  have h := c6_per_field_trigger
    (fun _ => ROut.sync { rerrors := some [("email", "required")] })
    ⟨[("email", JVal.vStr "")], [("password", "p")], [], [], false⟩
    "email" "password" { rerrors := some [("email", "required")] }
    rfl (by decide)
  rw [h.2.2.2.1]
  decide

/-- Claim C7: with a synchronous resolver configured, the handler returned
by `handleSubmit` never calls the submit callback when the resolver rejects
the current values (returns an `errors` branch), and calls it exactly once,
with the values snapshot current at invocation time, when the resolver
accepts them (returns no `errors` branch). -/
theorem c7_submit_gated (resolver : Resolver) (cb : JObj → Bool)
    (st : FormSt) (rr : RResult) (hres : resolver st.values = ROut.sync rr) :
    (runHandleSubmit (some resolver) cb st).calls
      = if rr.rerrors.isNone then [st.values] else [] := by
  have hv : ({ st with isSubmitting := true } : FormSt).values = st.values :=
    rfl
  simp only [runHandleSubmit, triggerRun, hv, hres, outErrors]
  rcases rr.rerrors with _ | es
  · simp only [Option.isNone_none, if_true]
    split <;> rfl
  · simp

/-- Witness for `c7_submit_gated`: a rejecting resolver yields no callback
invocation; instantiated at a concrete state. -/
theorem c7_submit_gated_witness :
    (fun _ => ROut.sync { rerrors := some [("email", "bad")] } : Resolver)
        (⟨[("email", JVal.vStr "")], [], [], [], false⟩ : FormSt).values
      = ROut.sync { rerrors := some [("email", "bad")] }
    ∧ (runHandleSubmit
        (some (fun _ => ROut.sync { rerrors := some [("email", "bad")] }))
        (fun _ => false)
        ⟨[("email", JVal.vStr "")], [], [], [], false⟩).calls
      = if (some [("email", "bad")] : Option Errors).isNone
        then [(⟨[("email", JVal.vStr "")], [], [], [], false⟩ : FormSt).values]
        else [] := by
  refine ⟨rfl, ?_⟩
  exact c7_submit_gated
    (fun _ => ROut.sync { rerrors := some [("email", "bad")] })
    (fun _ => false) ⟨[("email", JVal.vStr "")], [], [], [], false⟩
    { rerrors := some [("email", "bad")] } rfl

/-- The nested-path read of a top-level values object (the object is itself
neither `null` nor `undefined`, so the `reduce` of `getNestedValue` starts
by reading its first segment). Used to contrast the per-field projection's
flat lookup with the Path Accessor read. -/
def getNestedValueObj (h : Heap) (o : JObj) (path : String) : JVal :=
  match jsSplitDot path with
  | [] => .vUndefined
  | p :: ps => getNVGo h ((alGet o p).getD .vUndefined) ps

/-- Claim C8 (implicit behavior, confirmed): per-field `trigger(f)` on a
dotted path `f` builds its resolver projection by the direct flat lookup
`currentValues[f]`, not by the nested Path Accessor read. Whenever the
literal dotted key is absent from the top-level values object — even though
the nested read at `f` finds a value — the projection passed to the
resolver is `{[f]: undefined}`, and the trigger outcome depends on the
resolver only through its behavior on that undefined-valued projection. -/
theorem c8_flat_projection (h : Heap) (st : FormSt) (f : String)
    (resolver g : Resolver)
    (hdot : ('.' : Char) ∈ f.data)
    (hflat : alGet st.values f = none)
    (hnested : getNestedValueObj h st.values f ≠ JVal.vUndefined)
    (hg : g [(f, JVal.vUndefined)] = resolver [(f, JVal.vUndefined)]) :
    fieldProjection st.values f = [(f, JVal.vUndefined)]
    ∧ triggerRun (some g) (some f) st
      = triggerRun (some resolver) (some f) st := by
  have hproj : fieldProjection st.values f = [(f, JVal.vUndefined)] := by
    simp [fieldProjection, hflat]
  refine ⟨hproj, ?_⟩
  simp only [triggerRun, hproj, hg]

/-- Witness for `c8_flat_projection`: values `{user: ref 0}` with heap
object 0 being `{email: "x"}`; the nested read of `"user.email"` is
`"x"` while the flat key `"user.email"` is absent. -/
theorem c8_flat_projection_witness :
    (('.' : Char) ∈ "user.email".data)
    ∧ alGet ([("user", JVal.vRef 0)] : JObj) "user.email" = none
    ∧ getNestedValueObj [[("email", JVal.vStr "x")]]
        [("user", JVal.vRef 0)] "user.email" ≠ JVal.vUndefined
    ∧ (fieldProjection [("user", JVal.vRef 0)] "user.email"
        = [("user.email", JVal.vUndefined)]
       ∧ triggerRun
           (some (fun _ => ROut.sync { rerrors := some [("user.email", "req")] }))
           (some "user.email")
           ⟨[("user", JVal.vRef 0)], [], [], [], false⟩
         = triggerRun
             (some (fun o => ROut.sync
               { rerrors := some [("user.email",
                   (alGet o "user.email").elim "req"
                     (fun _ => "req"))] }))
             (some "user.email")
             ⟨[("user", JVal.vRef 0)], [], [], [], false⟩) := by
  refine ⟨by decide, by decide, by decide, ?_⟩
  exact c8_flat_projection [[("email", JVal.vStr "x")]]
    ⟨[("user", JVal.vRef 0)], [], [], [], false⟩ "user.email"
    (fun o => ROut.sync
      { rerrors := some [("user.email",
          (alGet o "user.email").elim "req" (fun _ => "req"))] })
    (fun _ => ROut.sync { rerrors := some [("user.email", "req")] })
    (by decide) (by decide) (by decide) rfl

/-- Claim C9: `reset(newValues?)` replaces the values container with the
spread merge `{...defaultValues, ...newValues}` — pointwise, a key reads
from `newValues` when present there and from `defaultValues` otherwise,
and from the defaults alone when `newValues` is omitted — and clears the
errors, touched and dirty containers, regardless of prior state. -/
theorem c9_reset (defaults : JObj) (st : FormSt) (nv : JObj) (k : String)
    (hnd : (nv.map Prod.fst).Nodup) :
    (resetRun defaults (some nv) st).errors = []
    ∧ (resetRun defaults (some nv) st).touched = []
    ∧ (resetRun defaults (some nv) st).dirty = []
    ∧ alGet (resetRun defaults (some nv) st).values k
        = optOr (alGet nv k) (alGet defaults k)
    ∧ (resetRun defaults none st).errors = []
    ∧ (resetRun defaults none st).touched = []
    ∧ (resetRun defaults none st).dirty = []
    ∧ alGet (resetRun defaults none st).values k = alGet defaults k := by
  refine ⟨rfl, rfl, rfl, ?_, rfl, rfl, rfl, ?_⟩
  · simpa [resetRun] using alGet_objMerge defaults nv k hnd
  · simp [resetRun, objMerge]

/-- Witness for `c9_reset` at concrete defaults, state and new values. -/
theorem c9_reset_witness :
    ((([("b", JVal.vNum 5)] : JObj).map Prod.fst).Nodup)
    ∧ alGet (resetRun [("a", JVal.vNum 1), ("b", JVal.vNum 2)]
        (some [("b", JVal.vNum 5)])
        ⟨[("a", JVal.vNum 9)], [("a", "bad")], [("a", true)], [("a", true)],
         false⟩).values "b"
      = optOr (alGet ([("b", JVal.vNum 5)] : JObj) "b")
          (alGet ([("a", JVal.vNum 1), ("b", JVal.vNum 2)] : JObj) "b") := by
  refine ⟨by decide, ?_⟩
  exact (c9_reset [("a", JVal.vNum 1), ("b", JVal.vNum 2)]
    ⟨[("a", JVal.vNum 9)], [("a", "bad")], [("a", true)], [("a", true)], false⟩
    [("b", JVal.vNum 5)] "b" (by decide)).2.2.2.1

/-- Does this issue's first path segment equal `k`? -/
def keyHit (k : String) (i : ZIssue) : Bool :=
  decide (i.path.head? = some k)

/-- Does this issue hit key `k` with a non-empty message? -/
def keyHitNE (k : String) (i : ZIssue) : Bool :=
  decide (i.path.head? = some k) && decide (i.message ≠ "")

/-- Specification-side description of the error map `zodResolver` builds,
per key: no entry when no issue has `k` as its first path segment;
otherwise the message of the first issue for `k` carrying a non-empty
message, or the empty string when every issue for `k` has an empty
message. -/
def specKeyMsg (k : String) (issues : List ZIssue) : Option String :=
  if issues.any (keyHit k) then
    some (((issues.find? (keyHitNE k)).map ZIssue.message).getD "")
  else none

/-- Specification-side per-key reading of a whole `safeParse` result: no
entry on success, `specKeyMsg` on failure. -/
def specOfResult (k : String) : ZResult → Option String
  | .success _ => none
  | .failure issues => specKeyMsg k issues

theorem zodFold2_alGet (k : String) (hk : k ≠ "") (issues : List ZIssue) :
    ∀ acc : Errors,
      alGet (zodFold2 acc issues) k =
        if truthyMsg (alGet acc k) then alGet acc k
        else
          match issues.find? (keyHitNE k) with
          | some i => some i.message
          | none =>
              if issues.any (keyHit k) then some "" else alGet acc k := by
  induction issues with
  | nil =>
      intro acc
      by_cases ht : truthyMsg (alGet acc k) <;> simp [zodFold2, ht]
  | cons i rest ih =>
      intro acc
      rcases hhd : i.path.head? with _ | k0
      · have hp1 : keyHit k i = false := by simp [keyHit, hhd]
        have hp2 : keyHitNE k i = false := by simp [keyHitNE, hhd]
        simp only [zodFold2, hhd]
        rw [ih acc, List.find?_cons_of_neg _ (by simp [hp2]),
          List.any_cons, hp1, Bool.false_or]
      · by_cases hk0 : k0 = k
        · subst hk0
          simp only [zodFold2, hhd, if_neg hk]
          by_cases ht : truthyMsg (alGet acc k0)
          · rw [if_pos ht, ih acc, if_pos ht,
              List.find?_cons, List.any_cons]
            by_cases hm : keyHitNE k0 i = true
            · simp [hm, ht]
            · simp [hm, ht, keyHit, hhd]
          · rw [if_neg ht, ih (alSet acc k0 i.message),
              alGet_alSet_self acc k0 i.message]
            by_cases hm : i.message = ""
            · have hp2 : keyHitNE k0 i = false := by
                simp [keyHitNE, hm]
              have hhit : keyHit k0 i = true := by simp [keyHit, hhd]
              rw [hm, if_neg ht, List.find?_cons_of_neg _ (by simp [hp2]),
                List.any_cons, hhit, Bool.true_or]
              cases hfind : rest.find? (keyHitNE k0) <;>
                simp [hfind, truthyMsg, ite_self]
            · have hp2 : keyHitNE k0 i = true := by
                simp [keyHitNE, hhd, hm]
              rw [List.find?_cons_of_pos _ hp2]
              have htm : truthyMsg (some i.message) = true := by
                simp [truthyMsg, hm]
              rw [htm, if_pos rfl, if_neg ht]
        · have hne : k ≠ k0 := fun hh => hk0 hh.symm
          have hp1 : keyHit k i = false := by simp [keyHit, hhd, hk0]
          have hp2 : keyHitNE k i = false := by simp [keyHitNE, hhd, hk0]
          simp only [zodFold2, hhd]
          by_cases h0 : k0 = ""
          · rw [if_pos h0, ih acc, List.find?_cons_of_neg _ (by simp [hp2]),
              List.any_cons, hp1, Bool.false_or]
          · rw [if_neg h0]
            have hacc : alGet
                (if truthyMsg (alGet acc k0) then acc
                 else alSet acc k0 i.message) k = alGet acc k := by
              by_cases ht0 : truthyMsg (alGet acc k0)
              · rw [if_pos ht0]
              · rw [if_neg ht0, alGet_alSet_ne acc k0 k i.message hne]
            rw [ih _, hacc, List.find?_cons_of_neg _ (by simp [hp2]),
              List.any_cons, hp1, Bool.false_or]

/-- Claim C10, counterexample: with issues
`[{path: ["a"], message: ""}, {path: ["a"], message: "second"}]` the
resolver built by `zodResolver` returns `{errors: {a: "second"}}` — the
guard `!fieldErrors[key]` tests truthiness, and the first issue's
empty-string message is falsy, so the later issue for the same key is not
dropped as the claim states but overwrites it. -/
theorem c10_counterexample :
    zodResolver2 (fun _ => ZResult.failure
        [⟨["a"], ""⟩, ⟨["a"], "second"⟩]) []
      = { rvalues := none, rerrors := some [("a", "second")] } := by decide

/-- Claim C10 as amended: `zodResolver(schema)` returns `{values: parsed}`
exactly when `safeParse` succeeds and `{errors}` exactly when it fails
(never both); on failure the error map is keyed by first path segments
only, and the entry for a (non-empty) key `k` is the message of the first
issue for `k` that carries a non-empty message — a first issue whose
message is the empty string does not block later issues for the same key —
or the empty string when every issue for `k` has an empty message; issues
with an absent or empty first segment are skipped by this (guarded)
variant. -/
theorem c10_zod_resolver (parse : JObj → ZResult) (v : JObj) (k : String)
    (hk : k ≠ "") :
    (zodResolver2 parse v).rvalues = (parse v).getData
    ∧ (zodResolver2 parse v).rvalues.isSome = (parse v).isSuccess
    ∧ (zodResolver2 parse v).rerrors.isSome = !(parse v).isSuccess
    ∧ alGet ((zodResolver2 parse v).rerrors.getD []) k
        = specOfResult k (parse v) := by
  cases hp : parse v with
  | success d =>
      simp [zodResolver2, hp, ZResult.getData, ZResult.isSuccess,
        specOfResult, alGet]
  | failure issues =>
      refine ⟨?_, ?_, ?_, ?_⟩
      · simp [zodResolver2, hp, ZResult.getData]
      · simp [zodResolver2, hp, ZResult.isSuccess]
      · simp [zodResolver2, hp, ZResult.isSuccess]
      · simp only [zodResolver2, hp, Option.getD_some, specOfResult]
        rw [zodFold2_alGet k hk issues []]
        simp only [alGet, truthyMsg, Bool.false_eq_true, if_false,
          specKeyMsg]
        cases hfind : issues.find? (keyHitNE k) with
        | none =>
            by_cases ha : issues.any (keyHit k) <;> simp [ha, hfind]
        | some i =>
            have ha : issues.any (keyHit k) = true := by
              have hpi : keyHitNE k i = true := List.find?_some hfind
              have hki : keyHit k i = true := by
                simp only [keyHitNE, Bool.and_eq_true, decide_eq_true_eq]
                  at hpi
                simp [keyHit, hpi.1]
              exact List.any_eq_true.mpr
                ⟨i, List.mem_of_find?_eq_some hfind, hki⟩
            simp [ha, hfind]

/-- Witness for `c10_zod_resolver` at the schema outcome
`failure [{path: ["a"], message: "first"}, {path: ["a"], message: "late"}]`
and key `"a"`. -/
theorem c10_zod_resolver_witness :
    ("a" : String) ≠ ""
    ∧ alGet ((zodResolver2 (fun _ => ZResult.failure
          [⟨["a"], "first"⟩, ⟨["a"], "late"⟩]) []).rerrors.getD []) "a"
      = specOfResult "a" ((fun (_ : JObj) => ZResult.failure
          [⟨["a"], "first"⟩, ⟨["a"], "late"⟩]) []) := by
  refine ⟨by decide, ?_⟩
  exact (c10_zod_resolver (fun _ => ZResult.failure
    [⟨["a"], "first"⟩, ⟨["a"], "late"⟩]) [] "a" (by decide)).2.2.2

end SvelteFormHook
